import Mathlib

/-!
Verification of the vue-cal computational core (event utilities and date
utilities) against its natural-language specification.

The JavaScript sources are shallowly embedded below.  A JavaScript `Date`
is modelled as an integer count of seconds since an epoch, interpreted in
one fixed-offset civil-time frame (the specification explicitly puts
timezone-database-aware conversion and daylight-saving tables out of
scope, so `setDate`-based civil-day stepping coincides with adding a
whole number of 86400-second days).  JavaScript objects used as
string-keyed maps are modelled as association lists with the JavaScript
semantics: reading returns the first binding, writing updates an
existing binding in place or appends a fresh one, `delete` removes the
binding, and `Object.keys` is the key list in insertion order.
-/

namespace VueCal

/-- A JavaScript Date: seconds since the epoch in one fixed civil frame.
The source measures in milliseconds; every comparison and division in the
embedded code scales uniformly, and the two sub-second constants that the
code uses (the 1-second fudge in `countDays`) are exact in seconds. -/
abbrev JSDate := Int

/-- Civil day number of a date (the number of whole days since the epoch),
the moral content of truncating a JS date to local midnight. -/
def dayNumber (d : JSDate) : Int := d.fdiv 86400

/-- Seconds elapsed since local midnight. -/
def secondOfDay (d : JSDate) : Int := d.fmod 86400

/-- Model of `date.getHours()`. -/
def getHours (d : JSDate) : Int := (secondOfDay d).fdiv 3600

/-- Model of `date.getMinutes()`. -/
def getMinutes (d : JSDate) : Int := ((secondOfDay d).fmod 3600).fdiv 60

/-- Model of `date.setHours(h, m, s, 0)` (returning the new timestamp,
as the JS setter does). -/
def setHours (d : JSDate) (h m s : Int) : JSDate :=
  dayNumber d * 86400 + h * 3600 + m * 60 + s

/-- Model of the `Date.prototype.addDays` helper from date-utils.js:
civil-day stepping via `setDate(getDate() + days)`, which in a fixed
civil frame advances the timestamp by exactly `days` whole days while
preserving the time of day. -/
def addDays (d : JSDate) (days : Int) : JSDate := d + days * 86400

/-- Model of the `Date.prototype.subtractDays` helper from date-utils.js. -/
def subtractDays (d : JSDate) (days : Int) : JSDate := d - days * 86400

/-- Model of `date.getTime()` (up to the uniform ms/s scale). -/
def getTime (d : JSDate) : Int := d

/-- Civil date (year, month 1..12, day 1..31) of a civil day number;
standard Gregorian conversion, modelling the `getFullYear`, `getMonth`
and `getDate` accessors of a JS date. -/
def civilFromDays (z0 : Int) : Int × Int × Int :=
  let z := z0 + 719468
  let era := z.fdiv 146097
  let doe := z - era * 146097
  let yoe := (doe - doe.fdiv 1460 + doe.fdiv 36524 - doe.fdiv 146096).fdiv 365
  let y := yoe + era * 400
  let doy := doe - (365 * yoe + yoe.fdiv 4 - yoe.fdiv 100)
  let mp := (5 * doy + 2).fdiv 153
  let d := doy - (153 * mp + 2).fdiv 5 + 1
  let m := if mp < 10 then mp + 3 else mp - 9
  (if m ≤ 2 then y + 1 else y, m, d)

/-- Civil day number of a civil date (inverse of `civilFromDays`), used to
build concrete test dates. -/
def daysFromCivil (y0 m d : Int) : Int :=
  let y := if m ≤ 2 then y0 - 1 else y0
  let era := y.fdiv 400
  let yoe := y - era * 400
  let mp := if 2 < m then m - 3 else m + 9
  let doy := (153 * mp + 2).fdiv 5 + d - 1
  let doe := yoe * 365 + yoe.fdiv 4 - yoe.fdiv 100 + doy
  era * 146097 + doe - 719468

/-- Build a concrete JS date from a civil date and a time of day. -/
def mkDateTime (y m d hh mi : Int) : JSDate :=
  daysFromCivil y m d * 86400 + hh * 3600 + mi * 60

/-- Zero padding used throughout the formatters:
`(x < 10 ? '0' : '') + x`. -/
def pad2 (n : Int) : String := (if n < 10 then "0" else "") ++ toString n

/-- Model of `formatDateLite` from date-utils.js: the canonical
`YYYY-MM-DD` rendering of a date from its `getFullYear`, `getMonth() + 1`
and `getDate` components. -/
def formatDateLite (date : JSDate) : String :=
  let c := civilFromDays (dayNumber date)
  toString c.1 ++ "-" ++ pad2 c.2.1 ++ "-" ++ pad2 c.2.2

/-- Model of `formatTime` from date-utils.js at its default `HH:mm`
format: the token table sends `HH` to the zero-padded floor of
`time / 60` and `mm` to the zero-padded `time % 60`. -/
def formatTimeHHmm (time : Int) : String :=
  pad2 (time.fdiv 60) ++ ":" ++ pad2 (time.tmod 60)

/-- Model of `s.substr(start, len)` on JavaScript strings. -/
def jsSubstr (s : String) (start len : Nat) : String :=
  ⟨(s.data.drop start).take len⟩

/-- Model of `Math.ceil(a / b)` for an integer numerator and a positive
integer denominator, as used by `countDays`. -/
def jsCeilDiv (a b : Int) : Int := -((-a).fdiv b)

/-- Model of `countDays` from date-utils.js (on already-parsed dates, the
only way the embedded callers invoke it): set the start at midnight, set
the end at midnight plus one second so that `Math.ceil` rounds a same-day
range up to a full day, and divide by the length of a day, rounding up.
The daylight-saving compensation term is identically zero in the fixed
civil frame assumed by the specification. -/
def countDays (start stop : JSDate) : Int :=
  let s := setHours start 0 0 0
  let e := setHours stop 0 0 1
  jsCeilDiv (e - s) 86400

/-- Model of `datesInSameTimeStep` from date-utils.js:
`Math.abs(date1 - date2) <= timeStep minutes`. -/
def datesInSameTimeStep (date1 date2 : JSDate) (timeStep : Int) : Bool :=
  ((date1 - date2).natAbs : Int) ≤ timeStep * 60

theorem setHours_zero (d : JSDate) : setHours d 0 0 0 = dayNumber d * 86400 := by
  simp [setHours]

theorem setHours_one_sec (d : JSDate) : setHours d 0 0 1 = dayNumber d * 86400 + 1 := by
  simp [setHours]

/-- C8: `countDays` returns the inclusive civil-day span of a range: any
two instants on the same civil day give 1 (the one-minute — here
one-second — fudge keeps a same-day range positive), and the range
2019-11-02 18:00 to 2019-11-03 02:00 gives exactly 2. -/
theorem countDays_spec :
    (∀ d1 d2 : JSDate, dayNumber d1 = dayNumber d2 → countDays d1 d2 = 1) ∧
    countDays (mkDateTime 2019 11 2 18 0) (mkDateTime 2019 11 3 2 0) = 2 := by
  constructor
  · intro d1 d2 h
    show jsCeilDiv (setHours d2 0 0 1 - setHours d1 0 0 0) 86400 = 1
    rw [setHours_zero, setHours_one_sec, ← h]
    have hone : dayNumber d1 * 86400 + 1 - dayNumber d1 * 86400 = 1 := by ring
    rw [hone]
    decide
  · decide

/-- Witness for C8: the same-day half of `countDays_spec` applied to two
distinct concrete instants of 2019-11-02. -/
theorem countDays_spec_witness :
    countDays (mkDateTime 2019 11 2 9 30) (mkDateTime 2019 11 2 23 45) = 1 :=
  countDays_spec.1 (mkDateTime 2019 11 2 9 30) (mkDateTime 2019 11 2 23 45) (by decide)

/-! ## JavaScript objects used as string-keyed maps -/

/-- Model of reading `obj[k]`: the binding of the key, if present. -/
def objGet {α : Type} (m : List (String × α)) (k : String) : Option α :=
  match m with
  | [] => none
  | p :: rest => if p.1 = k then some p.2 else objGet rest k

/-- Model of writing `obj[k] = v`: update an existing binding in place,
else append a fresh one (JavaScript keeps insertion order). -/
def objSet {α : Type} (m : List (String × α)) (k : String) (v : α) :
    List (String × α) :=
  match m with
  | [] => [(k, v)]
  | p :: rest => if p.1 = k then (k, v) :: rest else p :: objSet rest k v

/-- Model of `delete obj[k]`. -/
def objDelete {α : Type} (m : List (String × α)) (k : String) :
    List (String × α) :=
  m.filter (fun p => p.1 ≠ k)

/-- Model of `Object.keys(obj)`: the keys in insertion order. -/
def objKeys {α : Type} (m : List (String × α)) : List String :=
  m.map Prod.fst

/-- Helper of `jsDedup`, keeping the set of already-seen elements. -/
def jsDedupGo : List String → List String → List String
  | _, [] => []
  | seen, x :: xs =>
      if seen.contains x then jsDedupGo seen xs
      else x :: jsDedupGo (x :: seen) xs

/-- Model of `[...new Set(l)]`: deduplication keeping the first
occurrence of each element, in order. -/
def jsDedup (l : List String) : List String := jsDedupGo [] l

/-! ## The event data model (event-utils.js) -/

/-- One calendar-day slice of an event, as built by the segmentation
engine. -/
structure Segment where
  startDate : JSDate
  start : String
  startTimeMinutes : Int
  endTimeMinutes : Int
  isFirstDay : Bool
  isLastDay : Bool
  height : Int
  top : Int
deriving DecidableEq, Repr

/-- The `segments` object of an event: day key to segment. -/
abbrev SegMap := List (String × Segment)

/-- The repeat rule attachable to an event. The operations embedded in
this file never read it (the recurring branches live in
`createEventSegments` and the older `recurringEventInRange`, outside the
claims under verification), but the field is part of the record shape. -/
structure RepeatRule where
  every : String
  weekdays : List Int
  untilDate : Option String
deriving DecidableEq, Repr

/-- The event record, following `eventDefaults`. The source field `end`
is spelled `endStr` (Lean keyword); `repeat` is spelled `repeatRule`.
The `title`, `content` and `classes` payload fields are carried opaquely. -/
structure Event where
  _eid : String
  start : String
  startDate : JSDate
  startTimeMinutes : Int
  endStr : String
  endDate : JSDate
  endTimeMinutes : Int
  title : String
  content : String
  background : Bool
  allDay : Bool
  segments : Option SegMap
  repeatRule : Option RepeatRule
  daysCount : Int
  deletable : Bool
  deleting : Bool
  resizable : Bool
  resizing : Bool
  draggable : Bool
  dragging : Bool
  focused : Bool
  top : Int
  height : Int
  classes : List String
deriving DecidableEq, Repr

/-- The `eventDefaults` record. The JS defaults hold empty-string
placeholders in the two date slots; the typed model uses the epoch. -/
def eventDefaults : Event where
  _eid := ""
  start := ""
  startDate := 0
  startTimeMinutes := 0
  endStr := ""
  endDate := 0
  endTimeMinutes := 0
  title := ""
  content := ""
  background := false
  allDay := false
  segments := none
  repeatRule := none
  daysCount := 1
  deletable := true
  deleting := false
  resizable := true
  resizing := false
  draggable := true
  dragging := false
  focused := false
  top := 0
  height := 0
  classes := []

/-- Minutes in a day, as the source constant. -/
def minutesInADay : Int := 24 * 60

/-- Model of `addEventSegment` from event-utils.js: grow a multiple-day
event by one trailing day. Returns the mutated event and the returned
formatted date. -/
def addEventSegment (e : Event) : Event × String :=
  let e :=
    match e.segments with
    | none =>
        let k := jsSubstr e.start 0 10
        let seg : Segment :=
          { startDate := e.startDate
            start := k
            startTimeMinutes := e.startTimeMinutes
            endTimeMinutes := minutesInADay
            isFirstDay := true
            isLastDay := false
            height := 0
            top := 0 }
        { e with segments := some (objSet [] k seg) }
    | some _ => e
  let segs := e.segments.getD []
  let segs :=
    match objGet segs (formatDateLite e.endDate) with
    | some prev =>
        objSet segs (formatDateLite e.endDate)
          { prev with isLastDay := false, endTimeMinutes := minutesInADay }
    | none => segs
  let startDate0 := addDays e.endDate 1
  let endDate := startDate0
  let formattedDate := formatDateLite startDate0
  let startDate := setHours startDate0 0 0 0
  let segs :=
    objSet segs formattedDate
      { startDate := startDate
        start := formattedDate
        startTimeMinutes := 0
        endTimeMinutes := e.endTimeMinutes
        isFirstDay := false
        isLastDay := true
        height := 0
        top := 0 }
  ({ e with
      segments := some segs
      daysCount := ((objKeys segs).length : Int)
      endDate := endDate
      endStr := formattedDate ++ " " ++ formatTimeHHmm e.endTimeMinutes },
   formattedDate)

/-- Model of `removeEventSegment` from event-utils.js: shrink a
multiple-day event by one trailing day. The source dereferences
`e.segments` unconditionally; a null `segments` is modelled as the empty
map, which takes the same early-return path as a single-segment map. -/
def removeEventSegment (e : Event) : Event × String :=
  let segs := e.segments.getD []
  let segmentsCount := (objKeys segs).length
  if segmentsCount ≤ 1 then (e, jsSubstr e.endStr 0 10)
  else
    let segs := objDelete segs (jsSubstr e.endStr 0 10)
    let segmentsCount := segmentsCount - 1
    let endDate := subtractDays e.endDate 1
    let formattedDate := formatDateLite endDate
    let prev := objGet segs formattedDate
    let segsOpt : Option SegMap :=
      if segmentsCount = 0 then none
      else
        match prev with
        | some p =>
            some (objSet segs formattedDate
              { p with isLastDay := true, endTimeMinutes := e.endTimeMinutes })
        | none => some segs
    ({ e with
        segments := segsOpt
        daysCount := if segmentsCount = 0 then 1 else (segmentsCount : Int)
        endDate := endDate
        endStr := formattedDate ++ " " ++ formatTimeHHmm e.endTimeMinutes },
     formattedDate)

/-! ## Association-list lemmas for the object model -/

theorem objGet_objSet_self {α : Type} (m : List (String × α)) (k : String) (v : α) :
    objGet (objSet m k v) k = some v := by
  induction m with
  | nil => simp [objGet, objSet]
  | cons p rest ih =>
      by_cases h : p.1 = k
      · simp [objGet, objSet, h]
      · simp [objGet, objSet, h, ih]

theorem objGet_objSet_ne {α : Type} (m : List (String × α)) (k k2 : String) (v : α)
    (h : k ≠ k2) : objGet (objSet m k v) k2 = objGet m k2 := by
  induction m with
  | nil => simp [objGet, objSet, h, Ne.symm h]
  | cons p rest ih =>
      by_cases hp : p.1 = k
      · simp [objGet, objSet, hp, h, Ne.symm h]
      · by_cases hp2 : p.1 = k2
        · simp [objGet, objSet, hp, hp2, h, Ne.symm h]
        · simp [objGet, objSet, hp, hp2, ih]

theorem mem_objKeys_of_objGet {α : Type} {m : List (String × α)} {k : String} {v : α}
    (h : objGet m k = some v) : k ∈ objKeys m := by
  induction m with
  | nil => simp [objGet] at h
  | cons p rest ih =>
      by_cases hp : p.1 = k
      · simp [objKeys, hp]
      · simp only [objGet, hp, if_false] at h
        simp only [objKeys, List.map_cons, List.mem_cons]
        exact Or.inr (ih h)

theorem objGet_eq_none_of_not_mem {α : Type} {m : List (String × α)} {k : String}
    (h : k ∉ objKeys m) : objGet m k = none := by
  induction m with
  | nil => simp [objGet]
  | cons p rest ih =>
      simp only [objKeys, List.map_cons, List.mem_cons] at h
      push_neg at h
      simp only [objGet, Ne.symm h.1, if_false]
      exact ih h.2

theorem objKeys_objSet_of_mem {α : Type} {m : List (String × α)} {k : String} (v : α)
    (h : k ∈ objKeys m) : objKeys (objSet m k v) = objKeys m := by
  induction m with
  | nil => simp [objKeys] at h
  | cons p rest ih =>
      by_cases hp : p.1 = k
      · simp [objSet, objKeys, hp]
      · simp only [objKeys, List.map_cons, List.mem_cons] at h
        rcases h with h | h
        · exact absurd h.symm hp
        · simp only [objSet, hp, if_false, objKeys, List.map_cons]
          rw [show List.map Prod.fst (objSet rest k v) = objKeys (objSet rest k v) from rfl,
            ih h]
          rfl

theorem objSet_of_not_mem {α : Type} {m : List (String × α)} {k : String} (v : α)
    (h : k ∉ objKeys m) : objSet m k v = m ++ [(k, v)] := by
  induction m with
  | nil => simp [objSet]
  | cons p rest ih =>
      simp only [objKeys, List.map_cons, List.mem_cons] at h
      push_neg at h
      simp [objSet, Ne.symm h.1, ih h.2]

theorem objSet_objSet_same {α : Type} (m : List (String × α)) (k : String) (v w : α) :
    objSet (objSet m k v) k w = objSet m k w := by
  induction m with
  | nil => simp [objSet]
  | cons p rest ih =>
      by_cases hp : p.1 = k
      · simp [objSet, hp]
      · simp [objSet, hp, ih]

theorem objSet_eq_self {α : Type} {m : List (String × α)} {k : String} {v : α}
    (h : objGet m k = some v) : objSet m k v = m := by
  induction m with
  | nil => simp [objGet] at h
  | cons p rest ih =>
      obtain ⟨k0, v0⟩ := p
      by_cases hp : k0 = k
      · subst hp
        have hv : v0 = v := by simpa [objGet] using h
        subst hv
        simp [objSet]
      · simp only [objGet, hp, if_false] at h
        simp [objSet, hp, ih h]

theorem objDelete_of_not_mem {α : Type} {m : List (String × α)} {k : String}
    (h : k ∉ objKeys m) : objDelete m k = m := by
  refine List.filter_eq_self.mpr ?_
  intro p hp
  have hmem : p.1 ∈ objKeys m := List.mem_map_of_mem Prod.fst hp
  simp only [ne_eq, decide_eq_true_eq]
  exact fun hk2 => h (hk2 ▸ hmem)

theorem objDelete_append_single {α : Type} (m : List (String × α)) (k : String) (v : α) :
    objDelete (m ++ [(k, v)]) k = objDelete m k := by
  simp [objDelete, List.filter_append]

theorem objKeys_objDelete {α : Type} (m : List (String × α)) (k : String) :
    objKeys (objDelete m k) = (objKeys m).filter (fun y => y ≠ k) := by
  induction m with
  | nil => simp [objDelete, objKeys]
  | cons p rest ih =>
      by_cases hp : p.1 = k
      · simp [objDelete, objKeys, List.filter_cons, hp] at ih ⊢
        exact ih
      · simp [objDelete, objKeys, List.filter_cons, hp] at ih ⊢
        exact ih

theorem length_filter_ne_of_nodup {l : List String} {k : String}
    (hnd : l.Nodup) (hk : k ∈ l) :
    (l.filter (fun y => y ≠ k)).length = l.length - 1 := by
  have hfe : l.filter (fun y => y ≠ k) = l.filter (fun y => y != k) :=
    List.filter_congr (fun a _ => by by_cases hak : a = k <;> simp [hak])
  rw [hfe, ← List.Nodup.erase_eq_filter hnd k]
  exact List.length_erase_of_mem hk

theorem jsSubstr_append_of_len {s t : String} (h : s.data.length = 10) :
    jsSubstr (s ++ t) 0 10 = s := by
  have : ((s ++ t).data.drop 0).take 10 = s.data := by
    rw [List.drop_zero, String.data_append, List.take_left' h]
  unfold jsSubstr
  rw [this]

theorem subtractDays_addDays (d : JSDate) : subtractDays (addDays d 1) 1 = d := by
  simp [subtractDays, addDays]

theorem string_append_assoc (a b c : String) : a ++ b ++ c = a ++ (b ++ c) :=
  congrArg String.mk (by simp [String.data_append])

/-! ## C1: addEventSegment followed by removeEventSegment -/

/-- Shape of the event produced by `addEventSegment` when the event
already has segments and the last-day lookup succeeds. -/
theorem addEventSegment_some (e : Event) (m : SegMap) (s0 : Segment)
    (hseg : e.segments = some m)
    (hget : objGet m (formatDateLite e.endDate) = some s0) :
    (addEventSegment e).1 =
      { e with
          segments := some (objSet
            (objSet m (formatDateLite e.endDate)
              { s0 with isLastDay := false, endTimeMinutes := minutesInADay })
            (formatDateLite (addDays e.endDate 1))
            ⟨setHours (addDays e.endDate 1) 0 0 0, formatDateLite (addDays e.endDate 1),
              0, e.endTimeMinutes, false, true, 0, 0⟩)
          daysCount := ((objKeys (objSet
            (objSet m (formatDateLite e.endDate)
              { s0 with isLastDay := false, endTimeMinutes := minutesInADay })
            (formatDateLite (addDays e.endDate 1))
            ⟨setHours (addDays e.endDate 1) 0 0 0, formatDateLite (addDays e.endDate 1),
              0, e.endTimeMinutes, false, true, 0, 0⟩)).length : Int)
          endDate := addDays e.endDate 1
          endStr := formatDateLite (addDays e.endDate 1) ++ " " ++
            formatTimeHHmm e.endTimeMinutes } := by
  simp [addEventSegment, hseg, hget]

/-- C1 (amended): on an event whose `segments` map is already non-null
and well-formed — unique day keys, the end-day key bound to a segment
marked as last day carrying the event end time, the next-day key fresh,
`daysCount` consistent, and the `end` string in the canonical
`YYYY-MM-DD HH:mm` shape that the two operations themselves write —
`addEventSegment` followed by `removeEventSegment` restores `end`,
`endDate`, `daysCount` and the `segments` mapping exactly. (When
`segments` started as null they are NOT restored to null; see the
counterexample.) -/
theorem addRemove_roundtrip (e : Event) (m : SegMap) (s0 : Segment)
    (hseg : e.segments = some m)
    (hget : objGet m (formatDateLite e.endDate) = some s0)
    (hlast : s0.isLastDay = true)
    (hendt : s0.endTimeMinutes = e.endTimeMinutes)
    (hfresh : formatDateLite (addDays e.endDate 1) ∉ objKeys m)
    (hdc : e.daysCount = ((objKeys m).length : Int))
    (hend : e.endStr = formatDateLite e.endDate ++ " " ++ formatTimeHHmm e.endTimeMinutes)
    (hlen : (formatDateLite (addDays e.endDate 1)).data.length = 10) :
    (removeEventSegment (addEventSegment e).1).1.endStr = e.endStr ∧
    (removeEventSegment (addEventSegment e).1).1.endDate = e.endDate ∧
    (removeEventSegment (addEventSegment e).1).1.daysCount = e.daysCount ∧
    (removeEventSegment (addEventSegment e).1).1.segments = e.segments := by
  have hk0mem : formatDateLite e.endDate ∈ objKeys m := mem_objKeys_of_objGet hget
  have hmpos : 1 ≤ (objKeys m).length := List.length_pos.mpr (List.ne_nil_of_mem hk0mem)
  have hm1keys : objKeys (objSet m (formatDateLite e.endDate)
      { s0 with isLastDay := false, endTimeMinutes := minutesInADay }) = objKeys m :=
    objKeys_objSet_of_mem _ hk0mem
  have hk1m1 : formatDateLite (addDays e.endDate 1) ∉ objKeys (objSet m
      (formatDateLite e.endDate)
      { s0 with isLastDay := false, endTimeMinutes := minutesInADay }) := by
    rw [hm1keys]; exact hfresh
  rw [addEventSegment_some e m s0 hseg hget]
  rw [objSet_of_not_mem _ hk1m1]
  have hkeysSS : objKeys (objSet m (formatDateLite e.endDate)
        { s0 with isLastDay := false, endTimeMinutes := minutesInADay } ++
      [(formatDateLite (addDays e.endDate 1),
        ⟨setHours (addDays e.endDate 1) 0 0 0, formatDateLite (addDays e.endDate 1),
          0, e.endTimeMinutes, false, true, 0, 0⟩)]) =
      objKeys m ++ [formatDateLite (addDays e.endDate 1)] := by
    rw [show ∀ (a : SegMap) (p : String × Segment), objKeys (a ++ [p]) = objKeys a ++ [p.1]
      from fun a p => by simp [objKeys]]
    rw [hm1keys]
  simp only [removeEventSegment, Option.getD]
  rw [hkeysSS]
  have hcount : (objKeys m ++ [formatDateLite (addDays e.endDate 1)]).length =
      (objKeys m).length + 1 := by simp
  rw [hcount]
  rw [if_neg (by omega)]
  have hsub : jsSubstr (formatDateLite (addDays e.endDate 1) ++ " " ++
      formatTimeHHmm e.endTimeMinutes) 0 10 = formatDateLite (addDays e.endDate 1) := by
    rw [string_append_assoc]; exact jsSubstr_append_of_len hlen
  rw [hsub]
  rw [objDelete_append_single, objDelete_of_not_mem hk1m1]
  rw [subtractDays_addDays]
  rw [objGet_objSet_self]
  simp only
  have hne0 : ¬ ((objKeys m).length + 1 - 1 = 0) := by omega
  rw [if_neg hne0, if_neg hne0]
  rw [objSet_objSet_same]
  refine ⟨?_, ?_, ?_, ?_⟩
  · simp [hend]
  · simp
  · rw [hdc]
    omega
  · rw [hseg]
    refine congrArg some (objSet_eq_self ?_)
    rw [hget]
    obtain ⟨a1, a2, a3, a4, a5, a6, a7, a8⟩ := s0
    simp only at hlast hendt
    subst hlast
    subst hendt
    rfl

/-- A concrete single-day event with `segments = null`, used to exhibit
that the add/remove round trip does not restore a null `segments`. -/
def c1NullSegEvent : Event :=
  { eventDefaults with
      _eid := "1_0"
      start := "2019-11-02 09:00"
      startDate := mkDateTime 2019 11 2 9 0
      startTimeMinutes := 540
      endStr := "2019-11-02 11:00"
      endDate := mkDateTime 2019 11 2 11 0
      endTimeMinutes := 660
      daysCount := 1
      segments := none }

/-- Counterexample to C1 as stated: on an event whose `segments` was
null before the calls, `addEventSegment` then `removeEventSegment` does
not restore the `segments` mapping — it leaves a one-entry map (the
remove branch nulls `segments` only when the count reaches zero, which
cannot happen after an add). -/
theorem addRemove_null_segments_not_restored :
    (removeEventSegment (addEventSegment c1NullSegEvent).1).1.segments ≠
      c1NullSegEvent.segments := by decide

/-- The last-day segment of the concrete two-day witness event. -/
def c1LastSeg : Segment :=
  ⟨mkDateTime 2019 11 3 0 0, "2019-11-03", 0, 660, false, true, 0, 0⟩

/-- The segments map of the concrete two-day witness event. -/
def c1SegMapK : SegMap :=
  [("2019-11-02", ⟨mkDateTime 2019 11 2 9 0, "2019-11-02", 540, 1440, true, false, 0, 0⟩),
   ("2019-11-03", c1LastSeg)]

/-- A concrete well-formed two-day event for the C1 witness. -/
def c1TwoDayEvent : Event :=
  { eventDefaults with
      _eid := "1_1"
      start := "2019-11-02 09:00"
      startDate := mkDateTime 2019 11 2 9 0
      startTimeMinutes := 540
      endStr := "2019-11-03 11:00"
      endDate := mkDateTime 2019 11 3 11 0
      endTimeMinutes := 660
      daysCount := 2
      segments := some c1SegMapK }

/-- Witness for the amended C1: the round trip restores the four fields
on a concrete two-day event. -/
theorem addRemove_roundtrip_witness :
    (removeEventSegment (addEventSegment c1TwoDayEvent).1).1.endStr = c1TwoDayEvent.endStr ∧
    (removeEventSegment (addEventSegment c1TwoDayEvent).1).1.endDate = c1TwoDayEvent.endDate ∧
    (removeEventSegment (addEventSegment c1TwoDayEvent).1).1.daysCount = c1TwoDayEvent.daysCount ∧
    (removeEventSegment (addEventSegment c1TwoDayEvent).1).1.segments = c1TwoDayEvent.segments :=
  addRemove_roundtrip c1TwoDayEvent c1SegMapK c1LastSeg rfl (by decide) (by decide)
    (by decide) (by decide) (by decide) (by decide) (by decide)

/-! ## C2: the daysCount / segments-key-count invariant -/

/-- The invariant claimed by the specification: `daysCount` equals the
number of keys of `segments` when non-null, else 1. -/
def daysCountInvariant (e : Event) : Prop :=
  match e.segments with
  | none => e.daysCount = 1
  | some m => e.daysCount = ((objKeys m).length : Int)

/-- C2 (amended): the invariant holds after `addEventSegment`
unconditionally, and after `removeEventSegment` provided the event is
well-formed on entry: its end-day key is actually present in the
segments map (with unique keys), or it has at most one segment and
already satisfied the invariant. It is NOT maintained by
`createAnEvent` (see the counterexample: a multi-day creation sets
`daysCount` to the day span while `segments` stays null), and
`createEventSegments` never updates `daysCount` at all. -/
theorem daysCount_invariant_add_remove (e ef : Event)
    (hwf : ∀ m : SegMap, ef.segments = some m →
      (objKeys m).Nodup ∧
        (jsSubstr ef.endStr 0 10 ∈ objKeys m ∨ (objKeys m).length ≤ 1))
    (hin : daysCountInvariant ef) :
    daysCountInvariant (addEventSegment e).1 ∧
    daysCountInvariant (removeEventSegment ef).1 := by
  constructor
  · cases hs : e.segments with
    | none => simp only [addEventSegment, hs, daysCountInvariant]
    | some m => simp only [addEventSegment, hs, daysCountInvariant]
  · cases hs : ef.segments with
    | none =>
        simp only [removeEventSegment, hs, Option.getD]
        simp only [objKeys, List.map_nil, List.length_nil]
        rw [if_pos (by omega)]
        exact hin
    | some m =>
        obtain ⟨hnd, hmem⟩ := hwf m hs
        by_cases hc : (objKeys m).length ≤ 1
        · simp only [removeEventSegment, hs, Option.getD]
          rw [if_pos hc]
          exact hin
        · have hk : jsSubstr ef.endStr 0 10 ∈ objKeys m := by
            rcases hmem with h | h
            · exact h
            · exact absurd h hc
          simp only [removeEventSegment, hs, Option.getD]
          rw [if_neg hc]
          have hdelkeys : objKeys (objDelete m (jsSubstr ef.endStr 0 10)) =
              (objKeys m).filter (fun y => y ≠ jsSubstr ef.endStr 0 10) :=
            objKeys_objDelete m _
          have hdellen : (objKeys (objDelete m (jsSubstr ef.endStr 0 10))).length =
              (objKeys m).length - 1 := by
            rw [hdelkeys]
            exact length_filter_ne_of_nodup hnd hk
          have hne0 : ¬ ((objKeys m).length - 1 = 0) := by omega
          rw [if_neg hne0, if_neg hne0]
          cases hg : objGet (objDelete m (jsSubstr ef.endStr 0 10))
              (formatDateLite (subtractDays ef.endDate 1)) with
          | none =>
              simp only [daysCountInvariant]
              rw [hdellen]
          | some p =>
              simp only [daysCountInvariant]
              rw [objKeys_objSet_of_mem _ (mem_objKeys_of_objGet hg), hdellen]

/-- Witness for C2: the invariant facts instantiated on the concrete
two-day event (both for an add and a well-formed remove). -/
theorem daysCount_invariant_add_remove_witness :
    daysCountInvariant (addEventSegment c1NullSegEvent).1 ∧
    daysCountInvariant (removeEventSegment c1TwoDayEvent).1 :=
  daysCount_invariant_add_remove c1NullSegEvent c1TwoDayEvent
    (by
      intro m hm
      obtain rfl : c1SegMapK = m := Option.some.inj hm
      exact ⟨by decide, Or.inl (by decide)⟩)
    (show c1TwoDayEvent.daysCount = ((objKeys c1SegMapK).length : Int) by decide)

/-! ## The overlap and layout engine (event-utils.js) -/

/-- Model of `eventInRange`: all-day or time-less events (no `:` in the
formatted start) compare midnight-truncated dates inclusively; timed
events use strict half-open instant containment. -/
def eventInRange (event : Event) (start stop : JSDate) : Bool :=
  if event.allDay || !(event.start.data.contains ':') then
    let eventStart := setHours event.startDate 0 0 0
    decide (setHours start 0 0 0 ≤ eventStart) && decide (eventStart ≤ setHours stop 0 0 0)
  else
    decide (getTime event.startDate < getTime stop) &&
      decide (getTime event.endDate > getTime start)

/-- One per-event record of the transient overlap table. -/
structure OverlapRec where
  overlaps : List String
  start : String
  position : Int
deriving DecidableEq, Repr

/-- The record a JS lookup miss degrades to (`{ overlaps: [] }`). -/
def defaultOverlapRec : OverlapRec := ⟨[], "", 0⟩

/-- The transient overlap table, keyed by event id. -/
abbrev Table := List (String × OverlapRec)

/-- The two options read by `checkCellOverlappingEvents`. -/
structure OverlapOptions where
  overlapsPerTimeStep : Bool
  timeStep : Int

/-- Model of `if (!cellOverlaps[id]) Vue.set(cellOverlaps, id, ...)`. -/
def ensureRec (t : Table) (eid start : String) : Table :=
  match objGet t eid with
  | some _ => t
  | none => objSet t eid ⟨[], start, 0⟩

/-- Mutate the record of a key in place, when present. -/
def modifyRec (t : Table) (k : String) (f : OverlapRec → OverlapRec) : Table :=
  match objGet t k with
  | some r => objSet t k (f r)
  | none => t

/-- The add branch of the pair scoring: push each id into the other
record (deduplicated with `[...new Set(...)]`) and bump the position of
the later event. -/
def addPair (t : Table) (ei ej : String) : Table :=
  let t := modifyRec t ei (fun r => { r with overlaps := jsDedup (r.overlaps ++ [ej]) })
  modifyRec t ej (fun r =>
    { r with
        overlaps := jsDedup (r.overlaps ++ [ei])
        position := r.position + 1 })

/-- The remove branch of the pair scoring: splice each id out of the
other record when present, and decrement the position of the later
event. -/
def removePair (t : Table) (ei ej : String) : Table :=
  let t := modifyRec t ei (fun r => { r with overlaps := r.overlaps.erase ej })
  let t := modifyRec t ej (fun r => { r with overlaps := r.overlaps.erase ei })
  modifyRec t ej (fun r => { r with position := r.position - 1 })

/-- The body of the inner `comparisonArray.forEach(e2 => ...)` loop of
`checkCellOverlappingEvents`: score one ordered pair, adding the mutual
overlap when both events are neither background nor all-day and their
ranges intersect (and, when `overlapsPerTimeStep` is set, their starts
share a time step), else removing any stale mutual overlap. -/
def overlapStep (options : OverlapOptions) (e : Event) (t : Table) (e2 : Event) : Table :=
  let t := ensureRec t e2._eid e2.start
  let eventIsInRange := eventInRange e2 e.startDate e.endDate
  let eventsInSameTimeStep :=
    if options.overlapsPerTimeStep
    then datesInSameTimeStep e.startDate e2.startDate options.timeStep
    else true
  if !e.background && !e.allDay && !e2.background && !e2.allDay &&
      eventIsInRange && eventsInSameTimeStep then
    addPair t e._eid e2._eid
  else
    removePair t e._eid e2._eid

/-- The body of the outer `cellEvents.forEach(e => ...)` loop: ensure a
record for the event, reset its position, then score it against every
later event (the shrinking `comparisonArray`). -/
def processEvent (options : OverlapOptions) (t : Table) (e : Event)
    (rest : List Event) : Table :=
  let t := ensureRec t e._eid e.start
  let t := modifyRec t e._eid (fun r => { r with position := 0 })
  rest.foldl (overlapStep options e) t

/-- The whole first pass of `checkCellOverlappingEvents`. -/
def overlapsPass (options : OverlapOptions) : List Event → Table → Table
  | [], t => t
  | e :: rest, t => overlapsPass options rest (processEvent options t e rest)

/-- One character is strictly smaller than another by code point, the
unit of the JavaScript string comparison. -/
def charLt (c d : Char) : Bool := c.toNat < d.toNat

/-- Lexicographic comparison of character lists. -/
def strLtData : List Char → List Char → Bool
  | [], [] => false
  | [], _ :: _ => true
  | _ :: _, [] => false
  | c :: cs, d :: ds =>
      if charLt c d then true else if charLt d c then false else strLtData cs ds

/-- Model of the JavaScript `<` operator on strings: lexicographic by
code unit. -/
def jsStrLt (a b : String) : Bool := strLtData a.data b.data

/-- The sort comparator of the second pass: ascending by start string,
ties broken by descending id. `rowLt a b` holds when the comparator
returns a negative number, placing `a` before `b`. -/
def rowLt (a b : String × String) : Bool :=
  jsStrLt a.2 b.2 || (a.2 == b.2 && jsStrLt b.1 a.1)

/-- Insertion into a sorted row according to `rowLt`. -/
def insertSorted (x : String × String) :
    List (String × String) → List (String × String)
  | [] => [x]
  | y :: ys => if rowLt x y then x :: y :: ys else y :: insertSorted x ys

/-- Model of `overlapsRow.sort(comparator)`. Insertion sort produces the
order that any comparison sort produces for this comparator; entries with
identical id and start (on which the source comparator is inconsistent)
cannot arise from a table keyed by id. -/
def sortRow : List (String × String) → List (String × String)
  | [] => []
  | x :: xs => insertSorted x (sortRow xs)

/-- Model of `Array.prototype.findIndex`: index of the first match, or
-1 when there is none. -/
def jsFindIndex {α : Type} (l : List α) (p : α → Bool) : Int :=
  if l.findIdx p = l.length then -1 else (l.findIdx p : Int)

/-- One iteration of the exclusion loop of `getOverlapsStreak`: for a
partner id not yet excluded, push every other partner that does not
itself overlap it. -/
def streakStep (event : OverlapRec) (cellOverlaps : Table)
    (acc : List String) (id : String) : List String :=
  if acc.contains id then acc
  else
    let overlapsWithoutSelf := event.overlaps.filter (fun id2 => id2 != id)
    acc ++ overlapsWithoutSelf.filter
      (fun id3 => !(((objGet cellOverlaps id3).getD defaultOverlapRec).overlaps.contains id))

/-- Model of `getOverlapsStreak`: start from `overlaps.length + 1` and
exclude (deduplicated) every overlap partner that fails to overlap some
other partner. A table lookup of an id without a record degrades to the
empty record, as the callers guarantee presence. -/
def getOverlapsStreak (event : OverlapRec) (cellOverlaps : Table) : Int :=
  let removeFromStreak := event.overlaps.foldl (streakStep event cellOverlaps) []
  let removeFromStreak2 := jsDedup removeFromStreak
  ((event.overlaps.length : Int) + 1) - (removeFromStreak2.length : Int)

/-- One iteration of the `for (const id in cellOverlaps)` loop of the
second pass: recompute `position` as the index of the own id in the
sorted row of overlap partners plus self, and accumulate the longest
streak. -/
def positionStep (acc : Table × Int) (id : String) : Table × Int :=
  match objGet acc.1 id with
  | none => acc
  | some item =>
      let overlapsRow := item.overlaps.map
        (fun id2 => (id2, ((objGet acc.1 id2).getD defaultOverlapRec).start))
      let row := overlapsRow ++ [(id, item.start)]
      let sorted := sortRow row
      let item2 := { item with position := jsFindIndex sorted (fun p => p.1 == id) }
      let t2 := objSet acc.1 id item2
      (t2, max (getOverlapsStreak item2 t2) acc.2)

def positionPass (t0 : Table) : Table × Int :=
  (objKeys t0).foldl positionStep (t0, 0)

/-- Model of `checkCellOverlappingEvents`: the module-level table starts
empty on every call; returns the table and the longest streak. -/
def checkCellOverlappingEvents (cellEvents : List Event) (options : OverlapOptions) :
    Table × Int :=
  positionPass (overlapsPass options cellEvents [])

/-! ## Invariants of the overlap table -/

theorem mem_jsDedupGo {x : String} :
    ∀ (seen l : List String), x ∈ jsDedupGo seen l ↔ (x ∈ l ∧ x ∉ seen)
  | seen, [] => by simp [jsDedupGo]
  | seen, y :: ys => by
      unfold jsDedupGo
      by_cases hc : seen.contains y
      · rw [if_pos hc, mem_jsDedupGo seen ys]
        have hy : y ∈ seen := by
          rw [← List.elem_iff]
          exact hc
        constructor
        · exact fun h => ⟨List.mem_cons_of_mem y h.1, h.2⟩
        · rintro ⟨hmem, hns⟩
          rcases List.mem_cons.mp hmem with rfl | hmem
          · exact absurd hy hns
          · exact ⟨hmem, hns⟩
      · rw [if_neg hc]
        have hy : y ∉ seen := by
          rw [← List.elem_iff]
          exact hc
        simp only [List.mem_cons, mem_jsDedupGo (y :: seen) ys]
        by_cases hxy : x = y
        · subst hxy
          simp [hy]
        · simp [hxy]

theorem mem_jsDedup {x : String} {l : List String} : x ∈ jsDedup l ↔ x ∈ l := by
  unfold jsDedup
  rw [mem_jsDedupGo]
  simp

theorem nodup_jsDedupGo : ∀ (seen l : List String), (jsDedupGo seen l).Nodup
  | seen, [] => by simp [jsDedupGo]
  | seen, y :: ys => by
      unfold jsDedupGo
      by_cases hc : seen.contains y
      · rw [if_pos hc]
        exact nodup_jsDedupGo seen ys
      · rw [if_neg hc]
        refine List.nodup_cons.mpr ⟨?_, nodup_jsDedupGo (y :: seen) ys⟩
        rw [mem_jsDedupGo]
        simp

theorem nodup_jsDedup (l : List String) : (jsDedup l).Nodup := nodup_jsDedupGo [] l

theorem objGet_isSome_of_mem {α : Type} {m : List (String × α)} {k : String}
    (h : k ∈ objKeys m) : ∃ v, objGet m k = some v := by
  induction m with
  | nil => simp [objKeys] at h
  | cons p rest ih =>
      by_cases hp : p.1 = k
      · exact ⟨p.2, by simp [objGet, hp]⟩
      · simp only [objKeys, List.map_cons, List.mem_cons] at h
        rcases h with h | h
        · exact absurd h.symm hp
        · obtain ⟨v, hv⟩ := ih h
          exact ⟨v, by simp [objGet, hp, hv]⟩

theorem modifyRec_get_self (t : Table) (k : String) (f : OverlapRec → OverlapRec) :
    objGet (modifyRec t k f) k = (objGet t k).map f := by
  unfold modifyRec
  cases hg : objGet t k with
  | none => simp [hg]
  | some r => simp [hg, objGet_objSet_self]

theorem modifyRec_get_ne (t : Table) (k i : String) (f : OverlapRec → OverlapRec)
    (h : i ≠ k) : objGet (modifyRec t k f) i = objGet t i := by
  unfold modifyRec
  cases hg : objGet t k with
  | none => simp [hg]
  | some r =>
      simp only [hg]
      exact objGet_objSet_ne t k i (f r) (Ne.symm h)

theorem ensureRec_get_ne (t : Table) (k s i : String) (h : i ≠ k) :
    objGet (ensureRec t k s) i = objGet t i := by
  unfold ensureRec
  cases hg : objGet t k with
  | some r => simp [hg]
  | none =>
      simp only [hg]
      exact objGet_objSet_ne t k i _ (Ne.symm h)

theorem ensureRec_get_self (t : Table) (k s : String) :
    objGet (ensureRec t k s) k = some ((objGet t k).getD ⟨[], s, 0⟩) := by
  unfold ensureRec
  cases hg : objGet t k with
  | some r => simp [hg]
  | none => simp [hg, objGet_objSet_self]

/-- A key has a record in the table. -/
def keyPresent (t : Table) (i : String) : Prop := ∃ r, objGet t i = some r

/-- The membership relation carried by the table: `x` is listed among
the overlaps of `i`. -/
def relOvl (t : Table) (i x : String) : Prop :=
  ∃ r, objGet t i = some r ∧ x ∈ r.overlaps

/-- Every record carries a duplicate-free overlaps list. -/
def OvlNodup (t : Table) : Prop :=
  ∀ i r, objGet t i = some r → r.overlaps.Nodup

/-- The overlap relation of the table is symmetric. -/
def OvlSymm (t : Table) : Prop := ∀ i x, relOvl t i x ↔ relOvl t x i

/-- An id belonging to some event of the cell that is neither background
nor all-day. -/
def goodId (evts : List Event) (i : String) : Prop :=
  ∃ ev, ev ∈ evts ∧ ev._eid = i ∧ ev.background = false ∧ ev.allDay = false

/-- Every id on either side of the overlap relation belongs to a
non-background, non-all-day event of the cell. -/
def OvlSound (evts : List Event) (t : Table) : Prop :=
  ∀ i x, relOvl t i x → goodId evts i ∧ goodId evts x

theorem keyPresent_modifyRec (t : Table) (k : String) (f : OverlapRec → OverlapRec)
    (i : String) : keyPresent (modifyRec t k f) i ↔ keyPresent t i := by
  unfold keyPresent
  by_cases h : i = k
  · subst h
    rw [modifyRec_get_self]
    cases objGet t i <;> simp
  · rw [modifyRec_get_ne t k i f h]

theorem keyPresent_ensureRec (t : Table) (k s i : String) :
    keyPresent (ensureRec t k s) i ↔ (keyPresent t i ∨ i = k) := by
  unfold keyPresent
  by_cases h : i = k
  · subst h
    rw [ensureRec_get_self]
    simp
  · rw [ensureRec_get_ne t k s i h]
    simp [h]

theorem relOvl_ensureRec (t : Table) (k s i x : String) :
    relOvl (ensureRec t k s) i x ↔ relOvl t i x := by
  unfold relOvl
  by_cases h : i = k
  · subst h
    rw [ensureRec_get_self]
    cases hg : objGet t i with
    | some r => simp [hg]
    | none => simp [hg]
  · rw [ensureRec_get_ne t k s i h]

theorem keyPresent_addPair (t : Table) (ei ej i : String) :
    keyPresent (addPair t ei ej) i ↔ keyPresent t i := by
  unfold addPair
  rw [keyPresent_modifyRec, keyPresent_modifyRec]

theorem keyPresent_removePair (t : Table) (ei ej i : String) :
    keyPresent (removePair t ei ej) i ↔ keyPresent t i := by
  unfold removePair
  rw [keyPresent_modifyRec, keyPresent_modifyRec, keyPresent_modifyRec]

/-- Membership characterization of the add branch: provided both records
exist, exactly the mutual pair is added to the relation. -/
theorem relOvl_addPair (t : Table) (ei ej : String)
    (hpi : keyPresent t ei) (hpj : keyPresent t ej) (i x : String) :
    relOvl (addPair t ei ej) i x ↔
      (relOvl t i x ∨ (i = ei ∧ x = ej) ∨ (i = ej ∧ x = ei)) := by
  obtain ⟨ri, hri⟩ := hpi
  obtain ⟨rj, hrj⟩ := hpj
  unfold addPair relOvl
  by_cases hij : i = ej
  · subst hij
    by_cases hie : i = ei
    · subst hie
      rw [modifyRec_get_self, modifyRec_get_self, hri]
      simp only [Option.map_some', Option.some.injEq, exists_eq_left',
        mem_jsDedup, List.mem_append, List.mem_singleton, eq_self_iff_true,
        true_and, and_true]
      tauto
    · rw [modifyRec_get_self, modifyRec_get_ne _ _ _ _ hie, hrj]
      simp only [Option.map_some', Option.some.injEq, exists_eq_left',
        mem_jsDedup, List.mem_append, List.mem_singleton, eq_self_iff_true,
        true_and, and_true]
      tauto
  · by_cases hie : i = ei
    · subst hie
      rw [modifyRec_get_ne _ _ _ _ hij, modifyRec_get_self, hri]
      simp only [Option.map_some', Option.some.injEq, exists_eq_left',
        mem_jsDedup, List.mem_append, List.mem_singleton, eq_self_iff_true,
        true_and, and_true]
      tauto
    · rw [modifyRec_get_ne _ _ _ _ hij, modifyRec_get_ne _ _ _ _ hie]
      constructor
      · exact fun h => Or.inl h
      · rintro (h | ⟨hiei, _⟩ | ⟨hiej, _⟩)
        · exact h
        · exact absurd hiei hie
        · exact absurd hiej hij

/-- Membership characterization of the remove branch: exactly the mutual
pair leaves the relation (overlap lists are duplicate-free, so a single
splice removes the id). -/
theorem relOvl_removePair (t : Table) (ei ej : String) (hnd : OvlNodup t) (i x : String) :
    relOvl (removePair t ei ej) i x ↔
      (relOvl t i x ∧ ¬(i = ei ∧ x = ej) ∧ ¬(i = ej ∧ x = ei)) := by
  unfold removePair relOvl
  by_cases hij : i = ej
  · subst hij
    by_cases hie : i = ei
    · subst hie
      rw [modifyRec_get_self, modifyRec_get_self, modifyRec_get_self]
      cases hg : objGet t i with
      | none => simp
      | some r =>
          have hndr := hnd i r hg
          simp only [Option.map_some', Option.some.injEq, exists_eq_left',
            List.Nodup.mem_erase_iff (List.Nodup.erase _ hndr),
            List.Nodup.mem_erase_iff hndr, eq_self_iff_true, true_and, and_true]
          tauto
    · rw [modifyRec_get_self, modifyRec_get_self, modifyRec_get_ne _ _ _ _ hie]
      cases hg : objGet t i with
      | none => simp
      | some r =>
          have hndr := hnd i r hg
          simp only [Option.map_some', Option.some.injEq, exists_eq_left',
            List.Nodup.mem_erase_iff hndr, eq_self_iff_true, true_and, and_true]
          tauto
  · by_cases hie : i = ei
    · subst hie
      rw [modifyRec_get_ne _ _ _ _ hij, modifyRec_get_ne _ _ _ _ hij,
        modifyRec_get_self]
      cases hg : objGet t i with
      | none => simp
      | some r =>
          have hndr := hnd i r hg
          simp only [Option.map_some', Option.some.injEq, exists_eq_left',
            List.Nodup.mem_erase_iff hndr, eq_self_iff_true, true_and, and_true]
          tauto
    · rw [modifyRec_get_ne _ _ _ _ hij, modifyRec_get_ne _ _ _ _ hij,
        modifyRec_get_ne _ _ _ _ hie]
      constructor
      · exact fun h => ⟨h, fun hc => hie hc.1, fun hc => hij hc.1⟩
      · exact fun h => h.1

theorem ovlNodup_ensureRec (t : Table) (k s : String) (h : OvlNodup t) :
    OvlNodup (ensureRec t k s) := by
  intro i r hr
  by_cases hik : i = k
  · subst hik
    rw [ensureRec_get_self] at hr
    cases hg : objGet t i with
    | some r0 =>
        rw [hg] at hr
        simp only [Option.getD_some, Option.some.injEq] at hr
        exact hr ▸ h i r0 hg
    | none =>
        rw [hg] at hr
        simp only [Option.getD_none, Option.some.injEq] at hr
        subst hr
        simp
  · rw [ensureRec_get_ne t k s i hik] at hr
    exact h i r hr

theorem ovlNodup_modifyRec (t : Table) (k : String) (f : OverlapRec → OverlapRec)
    (hnd : OvlNodup t) (hf : ∀ r, r.overlaps.Nodup → (f r).overlaps.Nodup) :
    OvlNodup (modifyRec t k f) := by
  intro i r hr
  by_cases hik : i = k
  · subst hik
    rw [modifyRec_get_self] at hr
    cases hg : objGet t i with
    | none => rw [hg] at hr; simp at hr
    | some r0 =>
        rw [hg] at hr
        simp only [Option.map_some', Option.some.injEq] at hr
        exact hr ▸ hf r0 (hnd i r0 hg)
  · rw [modifyRec_get_ne _ _ _ _ hik] at hr
    exact hnd i r hr

theorem ovlNodup_addPair (t : Table) (ei ej : String) (hnd : OvlNodup t) :
    OvlNodup (addPair t ei ej) := by
  unfold addPair
  exact ovlNodup_modifyRec _ _ _
    (ovlNodup_modifyRec _ _ _ hnd (fun r _ => nodup_jsDedup _))
    (fun r _ => nodup_jsDedup _)

theorem ovlNodup_removePair (t : Table) (ei ej : String) (hnd : OvlNodup t) :
    OvlNodup (removePair t ei ej) := by
  unfold removePair
  refine ovlNodup_modifyRec _ _ _ ?_ (fun r h => h)
  refine ovlNodup_modifyRec _ _ _ ?_ (fun r h => List.Nodup.erase _ h)
  exact ovlNodup_modifyRec _ _ _ hnd (fun r h => List.Nodup.erase _ h)

/-- Unfolded form of one inner-loop step, for case splitting. -/
theorem overlapStep_eq (opts : OverlapOptions) (e : Event) (t : Table) (e2 : Event) :
    overlapStep opts e t e2 =
      if !e.background && !e.allDay && !e2.background && !e2.allDay &&
          eventInRange e2 e.startDate e.endDate &&
          (if opts.overlapsPerTimeStep
            then datesInSameTimeStep e.startDate e2.startDate opts.timeStep
            else true) then
        addPair (ensureRec t e2._eid e2.start) e._eid e2._eid
      else removePair (ensureRec t e2._eid e2.start) e._eid e2._eid := rfl

/-- The bundled invariant threaded through the first pass. -/
def Inv (evts : List Event) (t : Table) : Prop :=
  OvlNodup t ∧ OvlSymm t ∧ OvlSound evts t

theorem inv_ensureRec (evts : List Event) (t : Table) (k s : String)
    (h : Inv evts t) : Inv evts (ensureRec t k s) := by
  obtain ⟨hnd, hsym, hsound⟩ := h
  refine ⟨ovlNodup_ensureRec t k s hnd, ?_, ?_⟩
  · intro i x
    rw [relOvl_ensureRec, relOvl_ensureRec]
    exact hsym i x
  · intro i x hr
    rw [relOvl_ensureRec] at hr
    exact hsound i x hr

theorem overlapStep_inv (opts : OverlapOptions) (evts : List Event) (e e2 : Event)
    (t : Table) (h : Inv evts t) (he : e ∈ evts) (he2 : e2 ∈ evts)
    (hpe : keyPresent t e._eid) :
    Inv evts (overlapStep opts e t e2) ∧
      (∀ i, keyPresent (overlapStep opts e t e2) i ↔
        (keyPresent t i ∨ i = e2._eid)) := by
  have h1 : Inv evts (ensureRec t e2._eid e2.start) := inv_ensureRec evts t _ _ h
  obtain ⟨hnd1, hsym1, hsound1⟩ := h1
  have hpe1 : keyPresent (ensureRec t e2._eid e2.start) e._eid :=
    (keyPresent_ensureRec t _ _ _).mpr (Or.inl hpe)
  have hpj1 : keyPresent (ensureRec t e2._eid e2.start) e2._eid :=
    (keyPresent_ensureRec t _ _ _).mpr (Or.inr rfl)
  rw [overlapStep_eq]
  by_cases hcond : (!e.background && !e.allDay && !e2.background && !e2.allDay &&
      eventInRange e2 e.startDate e.endDate &&
      (if opts.overlapsPerTimeStep
        then datesInSameTimeStep e.startDate e2.startDate opts.timeStep
        else true)) = true
  case pos =>
    rw [if_pos hcond]
    simp only [Bool.and_eq_true, Bool.not_eq_true'] at hcond
    obtain ⟨⟨⟨⟨⟨hbg, had⟩, hbg2⟩, had2⟩, hir⟩, hts⟩ := hcond
    refine ⟨⟨ovlNodup_addPair _ _ _ hnd1, ?_, ?_⟩, ?_⟩
    · intro i x
      rw [relOvl_addPair _ _ _ hpe1 hpj1, relOvl_addPair _ _ _ hpe1 hpj1,
        hsym1 i x]
      tauto
    · intro i x hr
      rw [relOvl_addPair _ _ _ hpe1 hpj1] at hr
      rcases hr with hr | ⟨hi, hx⟩ | ⟨hi, hx⟩
      · exact hsound1 i x hr
      · exact ⟨⟨e, he, hi.symm, hbg, had⟩, ⟨e2, he2, hx.symm, hbg2, had2⟩⟩
      · exact ⟨⟨e2, he2, hi.symm, hbg2, had2⟩, ⟨e, he, hx.symm, hbg, had⟩⟩
    · intro i
      rw [keyPresent_addPair, keyPresent_ensureRec]
  case neg =>
    rw [if_neg hcond]
    refine ⟨⟨ovlNodup_removePair _ _ _ hnd1, ?_, ?_⟩, ?_⟩
    · intro i x
      rw [relOvl_removePair _ _ _ hnd1, relOvl_removePair _ _ _ hnd1,
        hsym1 i x]
      tauto
    · intro i x hr
      rw [relOvl_removePair _ _ _ hnd1] at hr
      exact hsound1 i x hr.1
    · intro i
      rw [keyPresent_removePair, keyPresent_ensureRec]

theorem foldl_overlapStep_inv (opts : OverlapOptions) (evts : List Event) (e : Event) :
    ∀ (rest : List Event) (t : Table), Inv evts t → e ∈ evts →
      (∀ y ∈ rest, y ∈ evts) → keyPresent t e._eid →
      Inv evts (rest.foldl (overlapStep opts e) t) ∧
        (∀ i, keyPresent t i → keyPresent (rest.foldl (overlapStep opts e) t) i)
  | [], t, h, _, _, _ => ⟨h, fun _ hi => hi⟩
  | e2 :: rest, t, h, he, hrest, hpe => by
      simp only [List.foldl_cons]
      obtain ⟨hinv2, hkeys⟩ :=
        overlapStep_inv opts evts e e2 t h he (hrest e2 (by simp)) hpe
      have hpe2 : keyPresent (overlapStep opts e t e2) e._eid :=
        (hkeys _).mpr (Or.inl hpe)
      obtain ⟨ha, hb⟩ := foldl_overlapStep_inv opts evts e rest (overlapStep opts e t e2)
        hinv2 he (fun y hy => hrest y (by simp [hy])) hpe2
      exact ⟨ha, fun i hi => hb i ((hkeys i).mpr (Or.inl hi))⟩

theorem relOvl_modifyRec_keepOvl (t : Table) (k : String) (f : OverlapRec → OverlapRec)
    (hf : ∀ r, (f r).overlaps = r.overlaps) (i x : String) :
    relOvl (modifyRec t k f) i x ↔ relOvl t i x := by
  unfold relOvl
  by_cases hik : i = k
  · subst hik
    rw [modifyRec_get_self]
    cases hg : objGet t i with
    | none => simp
    | some r => simp [hf r]
  · rw [modifyRec_get_ne _ _ _ _ hik]

theorem inv_modifyRec_keepOvl (evts : List Event) (t : Table) (k : String)
    (f : OverlapRec → OverlapRec) (hf : ∀ r, (f r).overlaps = r.overlaps)
    (h : Inv evts t) : Inv evts (modifyRec t k f) := by
  obtain ⟨hnd, hsym, hsound⟩ := h
  refine ⟨ovlNodup_modifyRec t k f hnd (fun r hr => (hf r).symm ▸ hr), ?_, ?_⟩
  · intro i x
    rw [relOvl_modifyRec_keepOvl _ _ _ hf, relOvl_modifyRec_keepOvl _ _ _ hf]
    exact hsym i x
  · intro i x hr
    rw [relOvl_modifyRec_keepOvl _ _ _ hf] at hr
    exact hsound i x hr

theorem processEvent_inv (opts : OverlapOptions) (evts : List Event) (e : Event)
    (rest : List Event) (t : Table) (h : Inv evts t) (he : e ∈ evts)
    (hrest : ∀ y ∈ rest, y ∈ evts) :
    Inv evts (processEvent opts t e rest) ∧
      (∀ i, keyPresent t i → keyPresent (processEvent opts t e rest) i) ∧
      keyPresent (processEvent opts t e rest) e._eid := by
  unfold processEvent
  have h1 : Inv evts (ensureRec t e._eid e.start) := inv_ensureRec evts t _ _ h
  have h2 : Inv evts (modifyRec (ensureRec t e._eid e.start) e._eid
      (fun r => { r with position := 0 })) :=
    inv_modifyRec_keepOvl evts _ _ _ (fun r => rfl) h1
  have hpe2 : keyPresent (modifyRec (ensureRec t e._eid e.start) e._eid
      (fun r => { r with position := 0 })) e._eid :=
    (keyPresent_modifyRec _ _ _ _).mpr ((keyPresent_ensureRec t _ _ _).mpr (Or.inr rfl))
  obtain ⟨ha, hb⟩ := foldl_overlapStep_inv opts evts e rest _ h2 he hrest hpe2
  refine ⟨ha, ?_, hb _ hpe2⟩
  intro i hi
  exact hb i ((keyPresent_modifyRec _ _ _ _).mpr
    ((keyPresent_ensureRec t _ _ _).mpr (Or.inl hi)))

theorem overlapsPass_inv (opts : OverlapOptions) (evts : List Event) :
    ∀ (l : List Event) (t : Table), (∀ y ∈ l, y ∈ evts) → Inv evts t →
      Inv evts (overlapsPass opts l t) ∧
        (∀ i, keyPresent t i → keyPresent (overlapsPass opts l t) i) ∧
        (∀ ev ∈ l, keyPresent (overlapsPass opts l t) ev._eid)
  | [], t, _, h => ⟨h, fun _ hi => hi, by simp⟩
  | e :: rest, t, hl, h => by
      simp only [overlapsPass]
      obtain ⟨h2, hmono2, hpe2⟩ := processEvent_inv opts evts e rest t h
        (hl e (by simp)) (fun y hy => hl y (by simp [hy]))
      obtain ⟨h3, hmono3, hall3⟩ := overlapsPass_inv opts evts rest
        (processEvent opts t e rest) (fun y hy => hl y (by simp [hy])) h2
      refine ⟨h3, fun i hi => hmono3 i (hmono2 i hi), ?_⟩
      intro ev hev
      rcases List.mem_cons.mp hev with rfl | hev
      · exact hmono3 _ hpe2
      · exact hall3 ev hev

theorem inv_nil (evts : List Event) : Inv evts [] := by
  refine ⟨?_, ?_, ?_⟩
  · intro i r hr
    simp [objGet] at hr
  · intro i x
    unfold relOvl
    simp [objGet]
  · intro i x hr
    obtain ⟨r, hr, _⟩ := hr
    simp [objGet] at hr

/-! ## The second pass: sorted positions and streaks -/

theorem length_insertSorted (x : String × String) (l : List (String × String)) :
    (insertSorted x l).length = l.length + 1 := by
  induction l with
  | nil => rfl
  | cons y ys ih =>
      unfold insertSorted
      by_cases h : rowLt x y = true
      · simp [h]
      · simp [h, ih]

theorem mem_insertSorted (x a : String × String) (l : List (String × String)) :
    a ∈ insertSorted x l ↔ a = x ∨ a ∈ l := by
  induction l with
  | nil => simp [insertSorted]
  | cons y ys ih =>
      unfold insertSorted
      by_cases h : rowLt x y = true
      · simp [h]
      · simp [h, ih]
        tauto

theorem length_sortRow (l : List (String × String)) :
    (sortRow l).length = l.length := by
  induction l with
  | nil => rfl
  | cons x xs ih => simp [sortRow, length_insertSorted, ih]

theorem mem_sortRow (a : String × String) (l : List (String × String)) :
    a ∈ sortRow l ↔ a ∈ l := by
  induction l with
  | nil => simp [sortRow]
  | cons x xs ih =>
      simp [sortRow, mem_insertSorted, ih]

theorem findIdx_lt_length {α : Type} (p : α → Bool) :
    ∀ (l : List α), (∃ a ∈ l, p a = true) → l.findIdx p < l.length
  | [], h => by simp at h
  | x :: xs, h => by
      rw [List.findIdx_cons]
      by_cases hx : p x = true
      · simp [hx]
      · simp only [hx, cond_false, List.length_cons]
        have : ∃ a ∈ xs, p a = true := by
          obtain ⟨a, ha, hpa⟩ := h
          rcases List.mem_cons.mp ha with rfl | ha
          · exact absurd hpa hx
          · exact ⟨a, ha, hpa⟩
        exact Nat.succ_lt_succ (findIdx_lt_length p xs this)

theorem jsFindIndex_bound {α : Type} (l : List α) (p : α → Bool)
    (h : ∃ a ∈ l, p a = true) :
    0 ≤ jsFindIndex l p ∧ jsFindIndex l p + 1 ≤ (l.length : Int) := by
  have hlt := findIdx_lt_length p l h
  unfold jsFindIndex
  rw [if_neg (by omega)]
  constructor
  · exact Int.ofNat_nonneg _
  · exact_mod_cast hlt

theorem positionStep_get_ne (acc : Table × Int) (id i : String) (h : i ≠ id) :
    objGet (positionStep acc id).1 i = objGet acc.1 i := by
  unfold positionStep
  cases hg : objGet acc.1 id with
  | none => simp [hg]
  | some item =>
      simp only [hg]
      exact objGet_objSet_ne _ _ _ _ (Ne.symm h)

theorem positionStep_ovlStart (acc : Table × Int) (id i : String) :
    ((objGet (positionStep acc id).1 i).map fun r => (r.overlaps, r.start)) =
      ((objGet acc.1 i).map fun r => (r.overlaps, r.start)) := by
  by_cases hii : i = id
  · subst hii
    unfold positionStep
    cases hg : objGet acc.1 i with
    | none => simp [hg]
    | some item => simp [hg, objGet_objSet_self]
  · rw [positionStep_get_ne _ _ _ hii]

theorem positionStep_bound (acc : Table × Int) (id : String) (r : OverlapRec)
    (h : objGet (positionStep acc id).1 id = some r) :
    0 ≤ r.position ∧ r.position ≤ (r.overlaps.length : Int) := by
  unfold positionStep at h
  cases hg : objGet acc.1 id with
  | none =>
      rw [hg] at h
      simp only at h
      exact absurd (hg ▸ h) (by simp [hg])
  | some item =>
      rw [hg] at h
      simp only [objGet_objSet_self, Option.some.injEq] at h
      subst h
      have hmem : ∃ a ∈ sortRow (item.overlaps.map
          (fun id2 => (id2, ((objGet acc.1 id2).getD defaultOverlapRec).start)) ++
            [(id, item.start)]), (fun p => p.1 == id) a = true := by
        refine ⟨(id, item.start), ?_, by simp⟩
        rw [mem_sortRow]
        simp
      obtain ⟨h0, h1⟩ := jsFindIndex_bound _ _ hmem
      rw [length_sortRow] at h1
      simp only [List.length_append, List.length_map, List.length_singleton] at h1
      constructor
      · exact h0
      · push_cast at h1 ⊢
        omega

theorem foldl_positionStep_get_ne :
    ∀ (ks : List String) (acc : Table × Int) (id : String), id ∉ ks →
      objGet (ks.foldl positionStep acc).1 id = objGet acc.1 id
  | [], _, _, _ => rfl
  | k :: ks, acc, id, h => by
      simp only [List.foldl_cons]
      have h1 : id ∉ ks := fun hc => h (by simp [hc])
      have h2 : id ≠ k := fun hc => h (by simp [hc])
      rw [foldl_positionStep_get_ne ks _ id h1, positionStep_get_ne _ _ _ h2]

theorem foldl_positionStep_bound :
    ∀ (ks : List String) (acc : Table × Int) (k : String), k ∈ ks →
      ∀ r, objGet (ks.foldl positionStep acc).1 k = some r →
        0 ≤ r.position ∧ r.position ≤ (r.overlaps.length : Int)
  | [], _, _, h, _, _ => by simp at h
  | id :: ks, acc, k, h, r, hr => by
      by_cases hks : k ∈ ks
      · exact foldl_positionStep_bound ks (positionStep acc id) k hks r
          (by simpa using hr)
      · have hk : k = id := by
          rcases List.mem_cons.mp h with h | h
          · exact h
          · exact absurd h hks
        subst hk
        simp only [List.foldl_cons] at hr
        rw [foldl_positionStep_get_ne ks _ k hks] at hr
        exact positionStep_bound acc k r hr

theorem foldl_positionStep_ovlStart :
    ∀ (ks : List String) (acc : Table × Int) (i : String),
      ((objGet (ks.foldl positionStep acc).1 i).map fun r => (r.overlaps, r.start)) =
        ((objGet acc.1 i).map fun r => (r.overlaps, r.start))
  | [], _, _ => rfl
  | k :: ks, acc, i => by
      simp only [List.foldl_cons]
      rw [foldl_positionStep_ovlStart ks _ i, positionStep_ovlStart]

theorem positionPass_ovlStart (t0 : Table) (i : String) :
    ((objGet (positionPass t0).1 i).map fun r => (r.overlaps, r.start)) =
      ((objGet t0 i).map fun r => (r.overlaps, r.start)) :=
  foldl_positionStep_ovlStart (objKeys t0) (t0, 0) i

theorem positionPass_relOvl (t0 : Table) (i x : String) :
    relOvl (positionPass t0).1 i x ↔ relOvl t0 i x := by
  have h := positionPass_ovlStart t0 i
  unfold relOvl
  cases hg : objGet (positionPass t0).1 i with
  | none =>
      rw [hg] at h
      cases hg0 : objGet t0 i with
      | none => simp
      | some r0 => rw [hg0] at h; simp at h
  | some r =>
      rw [hg] at h
      cases hg0 : objGet t0 i with
      | none => rw [hg0] at h; simp at h
      | some r0 =>
          rw [hg0] at h
          simp only [Option.map_some', Option.some.injEq, Prod.mk.injEq] at h
          simp [h.1]

theorem positionPass_keyPresent (t0 : Table) (i : String) :
    keyPresent (positionPass t0).1 i ↔ keyPresent t0 i := by
  have h := positionPass_ovlStart t0 i
  unfold keyPresent
  cases hg : objGet (positionPass t0).1 i with
  | none =>
      rw [hg] at h
      cases hg0 : objGet t0 i with
      | none => simp
      | some r0 => rw [hg0] at h; simp at h
  | some r =>
      rw [hg] at h
      cases hg0 : objGet t0 i with
      | none => rw [hg0] at h; simp at h
      | some r0 => simp

theorem positionPass_bound (t0 : Table) (i : String) (r : OverlapRec)
    (h : objGet (positionPass t0).1 i = some r) :
    0 ≤ r.position ∧ r.position ≤ (r.overlaps.length : Int) := by
  by_cases hk : i ∈ objKeys t0
  · exact foldl_positionStep_bound (objKeys t0) (t0, 0) i hk r h
  · have h0 : objGet t0 i = none := objGet_eq_none_of_not_mem hk
    have := (positionPass_keyPresent t0 i).mp ⟨r, h⟩
    obtain ⟨r0, hr0⟩ := this
    rw [h0] at hr0
    simp at hr0

/-! ## C3, C4, C10: properties of the returned overlap table -/

/-- C3: the overlap table computed by `checkCellOverlappingEvents` is a
symmetric relation — for any two records of the table, each id lists the
other among its overlaps exactly when the converse holds. -/
theorem checkCellOverlappingEvents_symm (cellEvents : List Event)
    (options : OverlapOptions) (i j : String) (ri rj : OverlapRec)
    (hi : objGet (checkCellOverlappingEvents cellEvents options).1 i = some ri)
    (hj : objGet (checkCellOverlappingEvents cellEvents options).1 j = some rj) :
    j ∈ ri.overlaps ↔ i ∈ rj.overlaps := by
  obtain ⟨⟨hnd, hsym, hsound⟩, _, _⟩ :=
    overlapsPass_inv options cellEvents cellEvents [] (fun y hy => hy) (inv_nil _)
  unfold checkCellOverlappingEvents at hi hj
  constructor
  · intro hmem
    have h1 : relOvl (positionPass (overlapsPass options cellEvents [])).1 i j :=
      ⟨ri, hi, hmem⟩
    rw [positionPass_relOvl] at h1
    have h2 := (hsym i j).mp h1
    rw [← positionPass_relOvl] at h2
    obtain ⟨r, hr, hmem2⟩ := h2
    have heq : rj = r := Option.some.inj (hj.symm.trans hr)
    rw [heq]
    exact hmem2
  · intro hmem
    have h1 : relOvl (positionPass (overlapsPass options cellEvents [])).1 j i :=
      ⟨rj, hj, hmem⟩
    rw [positionPass_relOvl] at h1
    have h2 := (hsym j i).mp h1
    rw [← positionPass_relOvl] at h2
    obtain ⟨r, hr, hmem2⟩ := h2
    have heq : ri = r := Option.some.inj (hi.symm.trans hr)
    rw [heq]
    exact hmem2

/-- C4: a background or all-day event of the cell always receives an
overlap record with an empty overlaps list, and its id never appears in
any other overlaps list (assuming, per the data model, that no
non-background non-all-day event of the cell shares its unique id). -/
theorem checkCellOverlappingEvents_flagged (cellEvents : List Event)
    (options : OverlapOptions) (e : Event) (he : e ∈ cellEvents)
    (hflag : e.background = true ∨ e.allDay = true)
    (hall : ∀ e2 ∈ cellEvents, e2._eid = e._eid →
      (e2.background = true ∨ e2.allDay = true)) :
    (∃ r, objGet (checkCellOverlappingEvents cellEvents options).1 e._eid = some r ∧
      r.overlaps = []) ∧
    (∀ k r, objGet (checkCellOverlappingEvents cellEvents options).1 k = some r →
      e._eid ∉ r.overlaps) := by
  obtain ⟨⟨hnd, hsym, hsound⟩, hmono, hallp⟩ :=
    overlapsPass_inv options cellEvents cellEvents [] (fun y hy => hy) (inv_nil _)
  have hgood : ¬ goodId cellEvents e._eid := by
    rintro ⟨ev, hev, heid, hbg, had⟩
    rcases hall ev hev heid with h | h
    · rw [hbg] at h
      exact Bool.false_ne_true h
    · rw [had] at h
      exact Bool.false_ne_true h
  constructor
  · have hp : keyPresent (checkCellOverlappingEvents cellEvents options).1 e._eid := by
      unfold checkCellOverlappingEvents
      rw [positionPass_keyPresent]
      exact hallp e he
    obtain ⟨r, hr⟩ := hp
    refine ⟨r, hr, ?_⟩
    by_contra hne
    obtain ⟨x, hx⟩ := List.exists_mem_of_ne_nil _ hne
    have hrel : relOvl (checkCellOverlappingEvents cellEvents options).1 e._eid x :=
      ⟨r, hr, hx⟩
    unfold checkCellOverlappingEvents at hrel
    rw [positionPass_relOvl] at hrel
    exact hgood (hsound e._eid x hrel).1
  · intro k r hr hmem
    have hrel : relOvl (checkCellOverlappingEvents cellEvents options).1 k e._eid :=
      ⟨r, hr, hmem⟩
    unfold checkCellOverlappingEvents at hrel
    rw [positionPass_relOvl] at hrel
    exact hgood (hsound k e._eid hrel).2

/-- C10: every record of the returned overlap table carries a final
`position` that is a valid column index for its own row:
`0 <= position <= |overlaps|`, because the second pass recomputes it as
the index of the own id inside the sorted row of its overlap partners
plus itself. -/
theorem checkCellOverlappingEvents_position_bound (cellEvents : List Event)
    (options : OverlapOptions) (i : String) (r : OverlapRec)
    (h : objGet (checkCellOverlappingEvents cellEvents options).1 i = some r) :
    0 ≤ r.position ∧ r.position ≤ (r.overlaps.length : Int) :=
  positionPass_bound _ i r h

/-! ## C5: bounds on the streak size -/

theorem streakStep_subset (event : OverlapRec) (t : Table) (acc : List String)
    (id : String) (h : ∀ y ∈ acc, y ∈ event.overlaps) :
    ∀ y ∈ streakStep event t acc id, y ∈ event.overlaps := by
  intro y hy
  unfold streakStep at hy
  by_cases hc : acc.contains id
  · rw [if_pos hc] at hy
    exact h y hy
  · rw [if_neg hc] at hy
    simp only [List.mem_append] at hy
    rcases hy with hy | hy
    · exact h y hy
    · have := List.mem_filter.mp hy
      exact (List.mem_filter.mp this.1).1

theorem foldl_streakStep_subset (event : OverlapRec) (t : Table) :
    ∀ (l : List String) (acc : List String), (∀ y ∈ acc, y ∈ event.overlaps) →
      ∀ y ∈ l.foldl (streakStep event t) acc, y ∈ event.overlaps
  | [], acc, h => h
  | id :: l, acc, h => by
      simp only [List.foldl_cons]
      exact foldl_streakStep_subset event t l (streakStep event t acc id)
        (streakStep_subset event t acc id h)

theorem nodup_length_le (l1 l2 : List String) (h1 : l1.Nodup)
    (hsub : ∀ y ∈ l1, y ∈ l2) : l1.length ≤ l2.length := by
  classical
  calc l1.length = l1.toFinset.card := (List.toFinset_card_of_nodup h1).symm
    _ ≤ l2.toFinset.card := Finset.card_le_card (fun y hy => by
        rw [List.mem_toFinset] at hy ⊢
        exact hsub y hy)
    _ ≤ l2.length := l2.toFinset_card_le

/-- C5: for any overlap record whose overlaps list refers only to ids
present in the table, the streak size is at least 1 and at most
`|overlaps| + 1`. -/
theorem getOverlapsStreak_bound (item : OverlapRec) (t : Table)
    (href : ∀ x ∈ item.overlaps, (objGet t x).isSome = true) :
    1 ≤ getOverlapsStreak item t ∧
      getOverlapsStreak item t ≤ (item.overlaps.length : Int) + 1 := by
  unfold getOverlapsStreak
  have hsub : ∀ y ∈ jsDedup (item.overlaps.foldl (streakStep item t) []),
      y ∈ item.overlaps := by
    intro y hy
    exact foldl_streakStep_subset item t item.overlaps [] (by simp)
      y (mem_jsDedup.mp hy)
  have hlen : (jsDedup (item.overlaps.foldl (streakStep item t) [])).length ≤
      item.overlaps.length :=
    nodup_length_le _ _ (nodup_jsDedup _) hsub
  constructor
  · simp only
    omega
  · simp only
    omega

/-! ## The event factory and its hosting context (createAnEvent) -/

/-- The source constant `defaultEventDuration` (hours). -/
def defaultEventDuration : Int := 2

/-- Model of `stringToDate` from date-utils.js for the canonical
`YYYY-MM-DD[ HH:MM]` shapes the embedded callers produce (`-` is
normalized to `/` before parsing, so both separators are accepted).
Any other input yields the invalid-date sentinel, modelled as the epoch;
no verified claim observes a value obtained from a malformed string. -/
def stringToDate (date : String) : JSDate :=
  let dv : Char → Int := fun c => (c.toNat : Int) - 48
  match date.data with
  | [y1, y2, y3, y4, s1, m1, m2, s2, d1, d2] =>
      if (s1 = '-' || s1 = '/') && (s2 = '-' || s2 = '/') &&
          [y1, y2, y3, y4, m1, m2, d1, d2].all Char.isDigit then
        mkDateTime (dv y1 * 1000 + dv y2 * 100 + dv y3 * 10 + dv y4)
          (dv m1 * 10 + dv m2) (dv d1 * 10 + dv d2) 0 0
      else 0
  | [y1, y2, y3, y4, s1, m1, m2, s2, d1, d2, sp, h1, h2, cl, n1, n2] =>
      if (s1 = '-' || s1 = '/') && (s2 = '-' || s2 = '/') && sp = ' ' && cl = ':' &&
          [y1, y2, y3, y4, m1, m2, d1, d2, h1, h2, n1, n2].all Char.isDigit then
        mkDateTime (dv y1 * 1000 + dv y2 * 100 + dv y3 * 10 + dv y4)
          (dv m1 * 10 + dv m2) (dv d1 * 10 + dv d2)
          (dv h1 * 10 + dv h2) (dv n1 * 10 + dv n2)
      else 0
  | _ => 0

/-- The hosting view context consumed by the factory, per the external
interface of the specification: id source, time display flag, optional
creation-veto hook, the two event collections, and the view geometry. A
log of emitted (signal, event id) pairs models the notification sink. -/
structure Vuecal where
  _uid : String
  eventIdIncrement : Nat
  time : Bool
  onEventCreate : Option (Event → Bool)
  mutableEvents : List Event
  viewEvents : List Event
  emitted : List (String × String)
  timeFrom : Int
  timeTo : Int
  timeStep : Int
  timeCellHeight : Int

/-- Modelled from the spec: `vuecal.emitWithEvent(name, event)` is the
event-notification sink of the hosting view (its body lives outside the
provided sources); it records the named signal with the affected event. -/
def emitWithEvent (name : String) (event : Event) (vuecal : Vuecal) : Vuecal :=
  { vuecal with emitted := vuecal.emitted ++ [(name, event._eid)] }

/-- Modelled from the spec: `vuecal.addEventsToView([event])` adds the
new event to the current view working set (its body lives outside the
provided sources; the segmentation request it triggers is not needed by
the claims below, which only observe the working set). -/
def addEventsToView (event : Event) (vuecal : Vuecal) : Vuecal :=
  { vuecal with viewEvents := vuecal.viewEvents ++ [event] }

/-- Model of `deleteAnEvent`: signal `event-delete`, then filter the
event out of the global collection and the view working set. -/
def deleteAnEvent (event : Event) (vuecal : Vuecal) : Vuecal :=
  let vuecal := emitWithEvent "event-delete" event vuecal
  { vuecal with
      mutableEvents := vuecal.mutableEvents.filter (fun e => e._eid ≠ event._eid)
      viewEvents := vuecal.viewEvents.filter (fun e => e._eid ≠ event._eid) }

/-- The candidate event handed to the creation hook by `createAnEvent`:
defaults, computed times and formatted strings, overridden by the
caller-supplied options (the object spread is modelled as an arbitrary
override function). The input instant is taken already parsed; the
string-input branch of the source is `stringToDate` composed in front. -/
def candidateEvent (dateTime : JSDate) (eventOptions : Event → Event)
    (vuecal : Vuecal) : Event :=
  let hours := getHours dateTime
  let minutes := getMinutes dateTime
  let startTimeMinutes := hours * 60 + minutes
  let hoursEnd := hours + defaultEventDuration
  let endTimeMinutes := startTimeMinutes + 120
  let formattedHours := pad2 hours
  let formattedHoursEnd := pad2 hoursEnd
  let formattedMinutes := pad2 minutes
  let start := formatDateLite dateTime ++
    (if vuecal.time then " " ++ formattedHours ++ ":" ++ formattedMinutes else "")
  let endS := formatDateLite dateTime ++
    (if vuecal.time then " " ++ formattedHoursEnd ++ ":" ++ formattedMinutes else "")
  eventOptions
    { eventDefaults with
        _eid := vuecal._uid ++ "_" ++ toString vuecal.eventIdIncrement
        start := start
        startDate := dateTime
        startTimeMinutes := startTimeMinutes
        endStr := endS
        endDate := stringToDate endS
        endTimeMinutes := endTimeMinutes
        segments := none }

/-- Model of `createAnEvent`: build the candidate (consuming one id from
the increment source), give the optional creation hook a chance to veto
(the bound delete callback it also receives is modelled as part of the
pure veto decision), then set `daysCount` for multi-day events, append
to the global collection, add to the view, and signal `event-create`
and `event-change`. -/
def createAnEvent (dateTime : JSDate) (eventOptions : Event → Event)
    (vuecal : Vuecal) : Option Event × Vuecal :=
  let event := candidateEvent dateTime eventOptions vuecal
  let vuecal := { vuecal with eventIdIncrement := vuecal.eventIdIncrement + 1 }
  let aborted :=
    match vuecal.onEventCreate with
    | some hook => !(hook event)
    | none => false
  if aborted then (none, vuecal)
  else
    let event :=
      if jsSubstr event.start 0 10 ≠ jsSubstr event.endStr 0 10 then
        { event with daysCount := countDays event.startDate event.endDate }
      else event
    let vuecal := { vuecal with mutableEvents := vuecal.mutableEvents ++ [event] }
    let vuecal := addEventsToView event vuecal
    let vuecal := emitWithEvent "event-create" event vuecal
    let vuecal := emitWithEvent "event-change" event vuecal
    (some event, vuecal)

/-! ## The geometry mapper (updateEventPosition) -/

/-- Floor of a rational number (numerator and denominator are kept
normalized, so the floored integer division is the floor). -/
def ratFloor (q : ℚ) : Int := q.num.fdiv (q.den : Int)

/-- Model of `Math.round`: floor of the argument plus one half. -/
def jsRound (q : ℚ) : Int := ratFloor (q + 1 / 2)

/-- Model of `updateEventPosition`: top from the start minutes clamped
at 0, bottom from the end minutes clamped above by `timeTo`, height from
their difference clamped below at the 5 pixel minimum. -/
def updateEventPosition (event : Event) (vuecal : Vuecal) : Event :=
  let minutesFromTop1 := event.startTimeMinutes - vuecal.timeFrom
  let top := jsRound ((minutesFromTop1 : ℚ) * (vuecal.timeCellHeight : ℚ) /
    (vuecal.timeStep : ℚ))
  let minutesFromTop2 := min event.endTimeMinutes vuecal.timeTo - vuecal.timeFrom
  let bottom := jsRound ((minutesFromTop2 : ℚ) * (vuecal.timeCellHeight : ℚ) /
    (vuecal.timeStep : ℚ))
  { event with top := max top 0, height := max (bottom - max top 0) 5 }

/-! ## Concrete cells for the overlap witnesses -/

/-- A timed event 09:00 to 10:00. -/
def ovEventA : Event :=
  { eventDefaults with
      _eid := "1", start := "2019-11-02 09:00", startDate := mkDateTime 2019 11 2 9 0,
      startTimeMinutes := 540, endStr := "2019-11-02 10:00",
      endDate := mkDateTime 2019 11 2 10 0, endTimeMinutes := 600 }

/-- A timed event 09:30 to 10:30 overlapping `ovEventA`. -/
def ovEventB : Event :=
  { eventDefaults with
      _eid := "2", start := "2019-11-02 09:30", startDate := mkDateTime 2019 11 2 9 30,
      startTimeMinutes := 570, endStr := "2019-11-02 10:30",
      endDate := mkDateTime 2019 11 2 10 30, endTimeMinutes := 630 }

/-- A background event with the same times as `ovEventA`. -/
def ovEventBg : Event :=
  { eventDefaults with
      _eid := "3", start := "2019-11-02 09:00", startDate := mkDateTime 2019 11 2 9 0,
      startTimeMinutes := 540, endStr := "2019-11-02 10:00",
      endDate := mkDateTime 2019 11 2 10 0, endTimeMinutes := 600,
      background := true }

/-- Options with the per-time-step restriction off. -/
def ovOptions : OverlapOptions := ⟨false, 30⟩

/-- The record computed for `ovEventA` in the two-event cell. -/
def ovRecA : OverlapRec := ⟨["2"], "2019-11-02 09:00", 0⟩

/-- The record computed for `ovEventB` in the two-event cell. -/
def ovRecB : OverlapRec := ⟨["1"], "2019-11-02 09:30", 1⟩

/-- Witness for C3: symmetry instantiated on a concrete two-event cell. -/
theorem checkCellOverlappingEvents_symm_witness :
    ("2" ∈ ovRecA.overlaps ↔ "1" ∈ ovRecB.overlaps) :=
  checkCellOverlappingEvents_symm [ovEventA, ovEventB] ovOptions "1" "2"
    ovRecA ovRecB (by decide) (by decide)

/-- Witness for C4: the background event of a concrete cell gets an
empty overlap record and appears in no overlaps list. -/
theorem checkCellOverlappingEvents_flagged_witness :
    (∃ r, objGet (checkCellOverlappingEvents [ovEventA, ovEventBg] ovOptions).1
        ovEventBg._eid = some r ∧ r.overlaps = []) ∧
    (∀ k r, objGet (checkCellOverlappingEvents [ovEventA, ovEventBg] ovOptions).1
        k = some r → ovEventBg._eid ∉ r.overlaps) :=
  checkCellOverlappingEvents_flagged [ovEventA, ovEventBg] ovOptions ovEventBg
    (by decide) (Or.inl (by decide)) (by decide)

/-- Witness for C10: the position bound instantiated on the concrete
two-event cell. -/
theorem checkCellOverlappingEvents_position_bound_witness :
    0 ≤ ovRecB.position ∧ ovRecB.position ≤ (ovRecB.overlaps.length : Int) :=
  checkCellOverlappingEvents_position_bound [ovEventA, ovEventB] ovOptions "2"
    ovRecB (by decide)

/-- Witness for C5: the streak bound instantiated on the concrete
two-event table. -/
theorem getOverlapsStreak_bound_witness :
    1 ≤ getOverlapsStreak ovRecA [("1", ovRecA), ("2", ovRecB)] ∧
      getOverlapsStreak ovRecA [("1", ovRecA), ("2", ovRecB)] ≤
        (ovRecA.overlaps.length : Int) + 1 :=
  getOverlapsStreak_bound ovRecA [("1", ovRecA), ("2", ovRecB)] (by decide)

/-! ## C7: the geometry mapper -/

/-- C7: for a positive time step, `updateEventPosition` sets the top to
the rounded `(startTimeMinutes - timeFrom) * timeCellHeight / timeStep`
clamped below at 0, computes the bottom by the same formula from
`min(endTimeMinutes, timeTo)`, and sets the height to bottom minus top
clamped below at the minimum visible 5 pixels — so the height is never
zero or negative, even for zero-duration events. -/
theorem updateEventPosition_spec (event : Event) (vuecal : Vuecal)
    (hstep : 0 < vuecal.timeStep) :
    (updateEventPosition event vuecal).top =
      max (jsRound (((event.startTimeMinutes - vuecal.timeFrom : Int) : ℚ) *
        (vuecal.timeCellHeight : ℚ) / (vuecal.timeStep : ℚ))) 0 ∧
    (updateEventPosition event vuecal).height =
      max (jsRound (((min event.endTimeMinutes vuecal.timeTo - vuecal.timeFrom : Int) : ℚ) *
          (vuecal.timeCellHeight : ℚ) / (vuecal.timeStep : ℚ)) -
        (updateEventPosition event vuecal).top) 5 ∧
    0 ≤ (updateEventPosition event vuecal).top ∧
    5 ≤ (updateEventPosition event vuecal).height ∧
    0 < (updateEventPosition event vuecal).height := by
  refine ⟨rfl, rfl, le_max_right _ _, le_max_right _ _, ?_⟩
  have h5 : (5 : Int) ≤ (updateEventPosition event vuecal).height := le_max_right _ _
  omega

/-- A view context with a positive time step used by the geometry and
factory witnesses. -/
def cVuecal : Vuecal :=
  { _uid := "1", eventIdIncrement := 0, time := true, onEventCreate := none,
    mutableEvents := [], viewEvents := [], emitted := [],
    timeFrom := 0, timeTo := 1440, timeStep := 60, timeCellHeight := 40 }

/-- Witness for C7: the geometry formulas instantiated on a concrete
event and view. -/
theorem updateEventPosition_spec_witness :
    (updateEventPosition ovEventA cVuecal).top =
      max (jsRound (((ovEventA.startTimeMinutes - cVuecal.timeFrom : Int) : ℚ) *
        (cVuecal.timeCellHeight : ℚ) / (cVuecal.timeStep : ℚ))) 0 ∧
    (updateEventPosition ovEventA cVuecal).height =
      max (jsRound (((min ovEventA.endTimeMinutes cVuecal.timeTo - cVuecal.timeFrom : Int) : ℚ) *
          (cVuecal.timeCellHeight : ℚ) / (cVuecal.timeStep : ℚ)) -
        (updateEventPosition ovEventA cVuecal).top) 5 ∧
    0 ≤ (updateEventPosition ovEventA cVuecal).top ∧
    5 ≤ (updateEventPosition ovEventA cVuecal).height ∧
    0 < (updateEventPosition ovEventA cVuecal).height :=
  updateEventPosition_spec ovEventA cVuecal (by decide)

/-! ## C6: eventInRange over its own range -/

/-- A concrete zero-duration timed event. -/
def c6ZeroEvent : Event :=
  { eventDefaults with
      _eid := "z", start := "2019-11-02 09:00", startDate := mkDateTime 2019 11 2 9 0,
      startTimeMinutes := 540, endStr := "2019-11-02 09:00",
      endDate := mkDateTime 2019 11 2 9 0, endTimeMinutes := 540 }

/-- Counterexample to C6 as stated: a timed zero-duration event is NOT
in range of its own `[start, end]` — the timed branch requires strict
inequalities, and `start < end && end > start` fails when the instants
coincide. -/
theorem eventInRange_self_zero_duration_false :
    eventInRange c6ZeroEvent c6ZeroEvent.startDate c6ZeroEvent.endDate = false := by
  decide

/-- C6 (amended): `eventInRange(event, event.startDate, event.endDate)`
returns true for every all-day or time-less event whose end civil day is
not before its start civil day, and for every timed event whose end
instant is strictly after its start instant; zero-duration timed events
are not in range of their own interval. -/
theorem eventInRange_self (event : Event)
    (h1 : (event.allDay = true ∨ ':' ∉ event.start.data) →
      dayNumber event.startDate ≤ dayNumber event.endDate)
    (h2 : event.allDay = false → ':' ∈ event.start.data →
      getTime event.startDate < getTime event.endDate) :
    eventInRange event event.startDate event.endDate = true := by
  unfold eventInRange
  by_cases hflag : (event.allDay || !(event.start.data.contains ':')) = true
  · rw [if_pos hflag]
    have hday : dayNumber event.startDate ≤ dayNumber event.endDate := by
      apply h1
      rcases Bool.or_eq_true_iff.mp hflag with h | h
      · exact Or.inl h
      · refine Or.inr (fun hmem => ?_)
        rw [Bool.not_eq_true'] at h
        have h3 : List.elem ':' event.start.data = false := h
        rw [List.elem_iff.mpr hmem] at h3
        exact absurd h3 (by decide)
    simp only [Bool.and_eq_true, decide_eq_true_eq, setHours_zero]
    exact ⟨le_refl _, Int.mul_le_mul_of_nonneg_right hday (by norm_num)⟩
  · rw [if_neg hflag]
    have hsplit : event.allDay = false ∧ ':' ∈ event.start.data := by
      constructor
      · cases hA : event.allDay
        · rfl
        · exact absurd (Bool.or_eq_true_iff.mpr (Or.inl hA)) hflag
      · cases hc : event.start.data.contains ':'
        · exact absurd (Bool.or_eq_true_iff.mpr (Or.inr (by rw [Bool.not_eq_true', hc])))
            hflag
        · exact List.elem_iff.mp hc
    have hlt := h2 hsplit.1 hsplit.2
    simp only [Bool.and_eq_true, decide_eq_true_eq, getTime]
    exact ⟨hlt, hlt⟩

/-- Witness for the amended C6: a concrete two-hour timed event is in
range of its own interval. -/
theorem eventInRange_self_witness :
    eventInRange ovEventA ovEventA.startDate ovEventA.endDate = true :=
  eventInRange_self ovEventA (by decide) (by decide)

/-! ## C9: silent abort when the creation hook vetoes -/

/-- C9: when the hosting context supplies a creation hook and the hook
returns a falsy result on the candidate event, `createAnEvent` returns
no event, leaves the global collection and the view working set exactly
as they were, and emits no signal (in particular neither `event-create`
nor `event-change`). Only the id counter has advanced, as in the source
the id is drawn before the hook runs. -/
theorem createAnEvent_vetoed (dateTime : JSDate) (eventOptions : Event → Event)
    (vuecal : Vuecal) (hook : Event → Bool)
    (hhook : vuecal.onEventCreate = some hook)
    (hfalse : hook (candidateEvent dateTime eventOptions vuecal) = false) :
    (createAnEvent dateTime eventOptions vuecal).1 = none ∧
    (createAnEvent dateTime eventOptions vuecal).2.mutableEvents = vuecal.mutableEvents ∧
    (createAnEvent dateTime eventOptions vuecal).2.viewEvents = vuecal.viewEvents ∧
    (createAnEvent dateTime eventOptions vuecal).2.emitted = vuecal.emitted := by
  unfold createAnEvent
  simp [hhook, hfalse]

/-- A hosting context whose creation hook vetoes everything. -/
def c9Vuecal : Vuecal :=
  { cVuecal with _uid := "9", onEventCreate := some (fun _ => false) }

/-- Witness for C9: the veto path on a concrete context. -/
theorem createAnEvent_vetoed_witness :
    (createAnEvent (mkDateTime 2019 11 2 9 0) id c9Vuecal).1 = none ∧
    (createAnEvent (mkDateTime 2019 11 2 9 0) id c9Vuecal).2.mutableEvents =
      c9Vuecal.mutableEvents ∧
    (createAnEvent (mkDateTime 2019 11 2 9 0) id c9Vuecal).2.viewEvents =
      c9Vuecal.viewEvents ∧
    (createAnEvent (mkDateTime 2019 11 2 9 0) id c9Vuecal).2.emitted =
      c9Vuecal.emitted :=
  createAnEvent_vetoed (mkDateTime 2019 11 2 9 0) id c9Vuecal (fun _ => false) rfl rfl

/-! ## C2 counterexample: createAnEvent and the invariant -/

/-- Event options making the created event span into the next day. -/
def c2Options : Event → Event := fun e =>
  { e with
      endStr := "2019-11-03 02:00"
      endDate := mkDateTime 2019 11 3 2 0
      endTimeMinutes := 120 }

/-- The event actually created with the multi-day options. -/
def c2CreatedEvent : Event :=
  ((createAnEvent (mkDateTime 2019 11 2 18 0) c2Options cVuecal).1).getD eventDefaults

/-- Counterexample to C2 as stated: `createAnEvent` returns an event
whose `segments` is null while `daysCount` is 2 (the day span), so the
invariant `daysCount = 1` when `segments` is null does not hold after
every core operation. -/
theorem createAnEvent_invariant_counterexample :
    (createAnEvent (mkDateTime 2019 11 2 18 0) c2Options cVuecal).1 =
      some c2CreatedEvent ∧
    c2CreatedEvent.segments = none ∧
    c2CreatedEvent.daysCount = 2 := by
  refine ⟨?_, ?_, ?_⟩ <;> decide

end VueCal
